import Mathlib

/-!
Shallow embedding of the statistical evaluation core of the Hamlet
seismic-model testing code, together with proofs about its behaviour.

Conventions of the embedding:
* Python floats are modelled by `ℚ`; the transcendental primitives
  (`np.exp`, `np.log`, `scipy.special.gamma`, the float power `**`) are
  abstract function parameters, so every theorem holds for any
  interpretation of them.
* Fallible Python code (functions that can raise `ValueError` /
  `ZeroDivisionError` / `KeyError`) is modelled with `Except`.
* Python dictionaries (which preserve insertion order) are modelled as
  association lists.
-/

namespace Hamlet

/-- Exceptions raised by the numeric routines of
`openquake/hme/utils/stats.py`. -/
inductive PyError where
  | valueError : String → PyError
  | zeroDivisionError : PyError
deriving DecidableEq, Repr

/-- Model of `math.factorial` on an `int` argument: raises `ValueError` for a
negative argument, otherwise returns the factorial. -/
def math_factorial (n : ℤ) : Except PyError ℚ :=
  if n < 0 then .error (.valueError "factorial() not defined for negative values")
  else .ok (Nat.factorial n.toNat)

/-- Model of `math.factorial` on a float argument (as in the
`np.math.factorial(rt)` call of `poisson_log_likelihood`): accepts integral
floats, raises `ValueError` otherwise (Python 3.7 semantics). -/
def math_factorial_float (q : ℚ) : Except PyError ℚ :=
  if q.den ≠ 1 then .error (.valueError "factorial() only accepts integral values")
  else if q.num < 0 then .error (.valueError "factorial() not defined for negative values")
  else .ok (Nat.factorial q.num.toNat)

/-- Embedding of `poisson_likelihood_zero_rate` (stats.py lines 60-67).
The Python parameter is annotated `int` but the annotation is not enforced
(`poisson_log_likelihood` actually passes a float), so the argument is `ℚ`
here. -/
def poisson_likelihood_zero_rate (num_events : ℚ)
    (not_modeled_val : ℚ := 0) : Except PyError ℚ :=
  if num_events = 0 then .ok 1
  else if 0 < num_events then .ok not_modeled_val
  else .error (.valueError "num_events should be zero or a positive integer.")

/-- Embedding of `poisson_likelihood` (stats.py lines 34-57), parameterised by
the interpretation `e` of `np.exp`.  In the nonzero-rate branch Python
evaluates `np.exp(-rt) * rt**num_events / np.math.factorial(num_events)`
left to right: `rt ** num_events` raises `ZeroDivisionError` when `rt == 0`
and the exponent is negative (before the factorial is reached), and
`math.factorial` raises `ValueError` on a negative count. -/
def poisson_likelihood (e : ℚ → ℚ) (num_events : ℤ) (rate : ℚ)
    (time_interval : ℚ := 1) (not_modeled_val : ℚ := 0) : Except PyError ℚ :=
  if rate = 0 then poisson_likelihood_zero_rate (num_events : ℚ) not_modeled_val
  else
    let rt := rate * time_interval
    if rt = 0 ∧ num_events < 0 then .error .zeroDivisionError
    else (math_factorial num_events).map fun f => e (-rt) * rt ^ num_events / f

/-- Embedding of `poisson_log_likelihood` (stats.py lines 70-79),
parameterised by the interpretation `lg` of `np.log`.  The source passes
`rate` — not `num_events` — to `poisson_likelihood_zero_rate` in the
zero-rate branch, and takes `np.math.factorial(rt)` — not of `num_events` —
in the other branch; both are reproduced literally here. -/
def poisson_log_likelihood (lg : ℚ → ℚ) (num_events : ℤ) (rate : ℚ)
    (time_interval : ℚ := 1) (not_modeled_val : ℚ := 0) : Except PyError ℚ :=
  if rate = 0 then (poisson_likelihood_zero_rate rate not_modeled_val).map lg
  else
    let rt := rate * time_interval
    (math_factorial_float rt).map fun f =>
      -1 * rt + (num_events : ℚ) * lg rt - lg f

/-- Model of `scipy.special.factorial`: returns `0` for negative arguments
(it does not raise). -/
def scipy_factorial (n : ℤ) : ℚ :=
  if n < 0 then 0 else Nat.factorial n.toNat

/-- Embedding of `negative_binomial_distribution` (stats.py lines 82-99),
parameterised by the interpretations `e` of `np.exp` (used by the Poisson
fallback), `gammaF` of `scipy.special.gamma`, and `rpow` of the float power
`x ** y` with non-integer exponent. -/
def negative_binomial_distribution (e : ℚ → ℚ) (gammaF : ℚ → ℚ)
    (rpow : ℚ → ℚ → ℚ) (num_events : ℤ) (mean_rate : ℚ)
    (dispersion : ℚ) : Except PyError ℚ :=
  if dispersion = 0 then poisson_likelihood e num_events mean_rate
  else
    let r_disp := 1 / dispersion
    let term_1 := gammaF ((num_events : ℚ) + r_disp) /
      (gammaF r_disp * scipy_factorial num_events)
    let term_2 := ((mean_rate * dispersion) /
      (1 + mean_rate * dispersion)) ^ num_events
    let term_3 := rpow (1 + mean_rate * dispersion) r_disp
    .ok (term_1 * term_2 * term_3)

/-! Model of numpy float arithmetic for `kullback_leibler_divergence`.
The divergence mixes division, logarithm, multiplication and summation in a
way where IEEE special values matter (`0/0` is NaN, `log 0` is `-inf`,
`0 * nan` is NaN, and NaN propagates through `np.sum`), so the value space
is a rational number extended with NaN and the two infinities. -/

/-- IEEE-style float value: NaN, the infinities, or a finite value. -/
inductive NpFloat where
  | nan : NpFloat
  | inf : NpFloat
  | ninf : NpFloat
  | val : ℚ → NpFloat
deriving DecidableEq, Repr

namespace NpFloat

/-- Float multiplication: NaN absorbs, `0 * ±inf` is NaN, infinities keep
signs. -/
def mul : NpFloat → NpFloat → NpFloat
  | nan, _ => nan
  | _, nan => nan
  | val a, val b => val (a * b)
  | val a, inf => if a = 0 then nan else if 0 < a then inf else ninf
  | inf, val a => if a = 0 then nan else if 0 < a then inf else ninf
  | val a, ninf => if a = 0 then nan else if 0 < a then ninf else inf
  | ninf, val a => if a = 0 then nan else if 0 < a then ninf else inf
  | inf, inf => inf
  | inf, ninf => ninf
  | ninf, inf => ninf
  | ninf, ninf => inf

/-- Float addition: NaN absorbs, `inf + (-inf)` is NaN. -/
def add : NpFloat → NpFloat → NpFloat
  | nan, _ => nan
  | _, nan => nan
  | inf, ninf => nan
  | ninf, inf => nan
  | inf, _ => inf
  | _, inf => inf
  | ninf, _ => ninf
  | _, ninf => ninf
  | val a, val b => val (a + b)

/-- Float division: NaN absorbs, `0/0` is NaN, `x/0` is a signed infinity
for `x ≠ 0`, `inf/inf` is NaN. -/
def div : NpFloat → NpFloat → NpFloat
  | nan, _ => nan
  | _, nan => nan
  | val a, val b =>
      if b = 0 then (if a = 0 then nan else if 0 < a then inf else ninf)
      else val (a / b)
  | val _, inf => val 0
  | val _, ninf => val 0
  | inf, val b => if 0 ≤ b then inf else ninf
  | ninf, val b => if 0 ≤ b then ninf else inf
  | inf, inf => nan
  | inf, ninf => nan
  | ninf, inf => nan
  | ninf, ninf => nan

end NpFloat

/-- Model of elementwise `np.log`, parameterised by the interpretation `lg`
of the real logarithm on positive arguments: `log 0 = -inf`, the logarithm
of a negative number or of NaN is NaN. -/
def np_log (lg : ℚ → ℚ) : NpFloat → NpFloat
  | .nan => .nan
  | .inf => .inf
  | .ninf => .nan
  | .val x => if x = 0 then .ninf else if x < 0 then .nan else .val (lg x)

/-- Model of `np.sum`: a left fold of float addition starting from `0`
(NaN anywhere makes the sum NaN). -/
def np_sum (l : List NpFloat) : NpFloat :=
  l.foldl NpFloat.add (.val 0)

/-- Embedding of `kullback_leibler_divergence` (stats.py lines 121-133):
`np.sum(pp * np.log(pp / qq))` elementwise over the two input sequences,
under the numpy float semantics above. -/
def kullback_leibler_divergence (lg : ℚ → ℚ) (p q : List ℚ) : NpFloat :=
  np_sum ((p.zip q).map fun ab =>
    NpFloat.mul (.val ab.1) (np_log lg (NpFloat.div (.val ab.1) (.val ab.2))))

/-! Embedding of
`openquake/hme/model_test_frameworks/gem/gem_test_functions.py`. -/

/-- Model of `np.unique(eq_counts, return_counts=True)`: the distinct values
in ascending order, together with the multiplicity of each. -/
def np_unique (l : List ℤ) : List ℤ × List ℕ :=
  let vals := List.insertionSort (fun a b => a ≤ b) l.dedup
  (vals, vals.map fun v => l.count v)

/-- Embedding of `get_mfd_freq_counts` (gem_test_functions.py lines 12-34):
the dictionary mapping each distinct count value to its relative frequency
`n_occurrences[i] / sum(n_occurrences)`. -/
def get_mfd_freq_counts (eq_counts : List ℤ) : List (ℤ × ℚ) :=
  (np_unique eq_counts).1.zip ((np_unique eq_counts).2.map
    fun c : ℕ => (c : ℚ) / (((np_unique eq_counts).2.sum : ℕ) : ℚ))

/-! Model of the data the GEM test functions operate on.  The `SpacemagBin`
class and the helpers `get_source_bins` and
`calc_mfd_log_likelihood_independent` live in modules of this repository
that are not among the embedded sources (`openquake/hme/utils/__init__.py`
and `gem_stats.py`), so they are modelled from the spec (§3, §4.2, §4.4). -/

/-- Modelled from the spec: a `Rupture` record (§3) — orientation angles,
magnitude, annual occurrence rate and source id (the hypocenter is not
needed by the embedded computations). -/
structure Rupture where
  strike : ℚ
  dip : ℚ
  rake : ℚ
  magnitude : ℚ
  occurrence_rate : ℚ
  source : String

/-- Modelled from the spec: an observed earthquake (§3). -/
structure Earthquake where
  magnitude : ℚ

/-- Modelled from the spec: the `SpacemagBin` aggregate (§3): magnitude bin
centers, plus ruptures and observed earthquakes keyed by bin center.  The
Monte Carlo draw behind `get_rupture_sample_mfd` (§4.2) is represented by an
explicit oracle field `sample_draws`, indexed by the interval length and the
iteration number; each draw is a mapping magnitude-bin-center → count. -/
structure SpacemagBin where
  mag_bin_centers : List ℚ
  ruptures : List (ℚ × List Rupture)
  observed_earthquakes : List (ℚ × List Earthquake)
  sample_draws : ℚ → ℕ → List (ℚ × ℚ)

/-- Modelled from the spec (§4.2): `get_rupture_sample_mfd` draws one Monte
Carlo count per magnitude bin; the draw itself is the `sample_draws`
oracle. -/
def SpacemagBin.get_rupture_sample_mfd (smb : SpacemagBin)
    (interval_length : ℚ) (iter : ℕ) : List (ℚ × ℚ) :=
  smb.sample_draws interval_length iter

/-- Reverse-order running sum (the incremental → cumulative MFD
conversion of §3). -/
def reverse_cumsum : List ℚ → List ℚ
  | [] => []
  | x :: xs => (x + xs.sum) :: reverse_cumsum xs

/-- Modelled from the spec (§4.2): `get_rupture_mfd` sums the occurrence
rates of the ruptures in each magnitude bin; with `cumulative` it converts
the result to the reverse running sum. -/
def SpacemagBin.get_rupture_mfd (smb : SpacemagBin)
    (cumulative : Bool := true) : List (ℚ × ℚ) :=
  let incremental := smb.mag_bin_centers.map fun bc =>
    (bc, (((smb.ruptures.lookup bc).getD []).map Rupture.occurrence_rate).sum)
  if cumulative then
    (incremental.map Prod.fst).zip (reverse_cumsum (incremental.map Prod.snd))
  else incremental

/-- Python `int()` conversion of a float: truncation toward zero. -/
def pyInt (q : ℚ) : ℤ := if q < 0 then ⌈q⌉ else ⌊q⌋

/-- The update applied to one dict entry by `mfd_counts[bc].append(n)`:
append `n` to the value list when the key matches. -/
def append_if_key (bc : ℚ) (n : ℤ) (kv : ℚ × List ℤ) : ℚ × List ℤ :=
  if kv.1 == bc then (kv.1, kv.2 ++ [n]) else kv

/-- Model of `mfd_counts[bc].append(n)` on a Python dict: raises `KeyError`
when the key is absent, otherwise appends to the list stored at the key. -/
def dict_append_count (counts : List (ℚ × List ℤ)) (bc : ℚ) (n : ℤ) :
    Except String (List (ℚ × List ℤ)) :=
  if counts.any fun kv => kv.1 == bc then .ok (counts.map (append_if_key bc n))
  else .error "KeyError"

/-- Embedding of `get_stochastic_mfd_counts` (gem_test_functions.py lines
37-69): initialise one empty list per magnitude bin center of the bin, then
for each of the `n_iters` iterations append `int(n_eqs)` to the list of each
magnitude center drawn by `get_rupture_sample_mfd` (non-normalized,
non-cumulative). -/
def get_stochastic_mfd_counts (smb : SpacemagBin) (n_iters : ℕ)
    (interval_length : ℚ) : Except String (List (ℚ × List ℤ)) :=
  (List.range n_iters).foldlM
    (fun mfd_counts i =>
      (smb.get_rupture_sample_mfd interval_length i).foldlM
        (fun acc bn => dict_append_count acc bn.1 (pyInt bn.2)) mfd_counts)
    (smb.mag_bin_centers.map fun bc => (bc, ([] : List ℤ)))

/-- Embedding of `get_stochastic_mfd` (gem_test_functions.py lines 72-100):
the per-magnitude-bin empirical frequency table of the sampled counts. -/
def get_stochastic_mfd (smb : SpacemagBin) (n_iters : ℕ)
    (interval_length : ℚ) : Except String (List (ℚ × List (ℤ × ℚ))) :=
  (get_stochastic_mfd_counts smb n_iters interval_length).map fun mfd_counts =>
    mfd_counts.map fun kv => (kv.1, get_mfd_freq_counts kv.2)

/-! Embedding of the likelihood test engine
(`openquake/hme/model_test_frameworks/gem/gem_tests.py`). -/

/-- The slice `cfg[config][tests][likelihood]` of the configuration that the
likelihood tests read. -/
structure LikelihoodTestConfig where
  likelihood_method : String
  n_iters : ℕ
  investigation_time : ℚ
  not_modeled_val : ℚ
  default_likelihood : ℚ

/-- The bin collection (§3): rows of spatial-cell key × `SpacemagBin`, plus
the `log_like` column once a test has written it (`none` while the column is
absent). -/
structure BinGDF where
  rows : List (ℕ × SpacemagBin)
  log_like : Option (List (ℕ × ℚ))

/-- Modelled from the spec (§4.4): a bin contains sources when some
magnitude bin of it holds at least one rupture. -/
def spacemag_bin_has_sources (smb : SpacemagBin) : Bool :=
  smb.ruptures.any fun kv => !kv.2.isEmpty

/-- Modelled from the spec (§4.4): `get_source_bins` (defined in
`openquake/hme/utils`, outside the embedded sources) selects the rows whose
`SpacemagBin` contains ruptures from the seismic source model. -/
def get_source_bins (rows : List (ℕ × SpacemagBin)) : List (ℕ × SpacemagBin) :=
  rows.filter fun row => spacemag_bin_has_sources row.2

/-- Model of `pandas.Series.update`: overwrite the base column with the
non-NaN (here: `some`) values of the update series, aligned on the index
key; keys absent from the update series keep their value. -/
def series_update (base : List (ℕ × ℚ)) (upd : List (ℕ × Option ℚ)) :
    List (ℕ × ℚ) :=
  base.map fun kv => (kv.1, ((upd.lookup kv.1).join).getD kv.2)

/-- Embedding of `mfd_poisson_likelihood_test` (gem_tests.py lines 86-115).
The per-row scoring function `calc_mfd_log_likelihood_independent` lives in
`gem_stats.py` (outside the embedded sources) and is the abstract parameter
`calcLL` (modelled from the spec, §4.4), returning `none` for a NaN score.
The test scores the source bins, sets the whole `log_like` column to the
configured `default_likelihood`, then updates it with the per-source-bin
scores. -/
def mfd_poisson_likelihood_test
    (calcLL : List (ℚ × List Earthquake) → List (ℚ × ℚ) → ℚ → ℚ → Option ℚ)
    (test_config : LikelihoodTestConfig) (bin_gdf : BinGDF) : BinGDF :=
  let source_bin_gdf := get_source_bins bin_gdf.rows
  let source_bin_mfds := source_bin_gdf.map fun row =>
    (row.1, row.2.get_rupture_mfd false)
  let source_bin_log_likes : List (ℕ × Option ℚ) :=
    source_bin_gdf.map fun row =>
      (row.1, calcLL row.2.observed_earthquakes
        ((source_bin_mfds.lookup row.1).getD [])
        test_config.investigation_time test_config.not_modeled_val)
  let log_like_col := bin_gdf.rows.map fun row =>
    (row.1, test_config.default_likelihood)
  { rows := bin_gdf.rows
    log_like := some (series_update log_like_col source_bin_log_likes) }

/-- Embedding of `mfd_empirical_likelihood_test` (gem_tests.py lines 47-83):
like the Poisson test, but the per-bin likelihood model is the stochastic
MFD of the bin (`get_stochastic_mfd`, whose `KeyError` propagates); the
scoring function is again the abstract `calcLL` from `gem_stats.py`. -/
def mfd_empirical_likelihood_test
    (calcLL : List (ℚ × List Earthquake) → List (ℚ × List (ℤ × ℚ)) → ℚ → Option ℚ)
    (test_config : LikelihoodTestConfig) (bin_gdf : BinGDF) :
    Except String BinGDF :=
  let source_bin_gdf := get_source_bins bin_gdf.rows
  match source_bin_gdf.mapM fun row =>
      (get_stochastic_mfd row.2 test_config.n_iters
        test_config.investigation_time).map fun mfd => (row.1, mfd) with
  | .error e => .error e
  | .ok source_bin_mfds =>
    let source_bin_log_likes : List (ℕ × Option ℚ) :=
      source_bin_gdf.map fun row =>
        (row.1, calcLL row.2.observed_earthquakes
          ((source_bin_mfds.lookup row.1).getD []) test_config.not_modeled_val)
    let log_like_col := bin_gdf.rows.map fun row =>
      (row.1, test_config.default_likelihood)
    .ok { rows := bin_gdf.rows
          log_like := some (series_update log_like_col source_bin_log_likes) }

/-- Embedding of `mfd_likelihood_test` (gem_tests.py lines 16-44): dispatch
on `likelihood_method`, followed by the report tail.  The dispatch has no
else-branch: a method other than the two recognised strings selects neither
test.  The tail then evaluates
`if report in cfg.keys(): return bin_gdf.log_like.describe().to_frame().to_html()`:
`report : Bool` models the presence of the `report` key in the top-level
`cfg`, `to_html` abstracts the describe/to_html rendering of the `log_like`
column, and the attribute access `bin_gdf.log_like` raises `AttributeError`
when the column was never written.  The result pairs the (possibly updated)
bin collection with the optional returned report string. -/
def mfd_likelihood_test
    (to_html : List (ℕ × ℚ) → String)
    (calcE : List (ℚ × List Earthquake) → List (ℚ × List (ℤ × ℚ)) → ℚ → Option ℚ)
    (calcP : List (ℚ × List Earthquake) → List (ℚ × ℚ) → ℚ → ℚ → Option ℚ)
    (test_config : LikelihoodTestConfig) (report : Bool) (bin_gdf : BinGDF) :
    Except String (BinGDF × Option String) :=
  let dispatched : Except String BinGDF :=
    if test_config.likelihood_method = "empirical" then
      mfd_empirical_likelihood_test calcE test_config bin_gdf
    else if test_config.likelihood_method = "poisson" then
      .ok (mfd_poisson_likelihood_test calcP test_config bin_gdf)
    else
      .ok bin_gdf
  match dispatched with
  | .error e => .error e
  | .ok gdf2 =>
    if report then
      match gdf2.log_like with
      | none => .error "AttributeError"
      | some col => .ok (gdf2, some (to_html col))
    else .ok (gdf2, none)

/-- Concrete source bin (one rupture) used to evaluate the likelihood-test
theorems. -/
def smb_with_rupture : SpacemagBin :=
  { mag_bin_centers := [6]
    ruptures := [(6, [⟨0, 90, 0, 6, 1, "s1"⟩])]
    observed_earthquakes := [(6, [])]
    sample_draws := fun _ _ => [(6, 0)] }

/-- Concrete non-source bin (no ruptures) used to evaluate the
likelihood-test theorems. -/
def smb_without_rupture : SpacemagBin :=
  { mag_bin_centers := [6]
    ruptures := [(6, [])]
    observed_earthquakes := [(6, [])]
    sample_draws := fun _ _ => [(6, 0)] }

end Hamlet

namespace Hamlet

/-- C1: with `rate == 0`, `poisson_likelihood` returns `1.0` when
`num_events == 0` and the given `not_modeled_val` when `num_events > 0`;
in both cases it returns normally (no exception). -/
theorem poisson_likelihood_zero_rate_branch (e : ℚ → ℚ) (t nmv : ℚ)
    (n : ℤ) (hn : 0 ≤ n) :
    poisson_likelihood e n 0 t nmv = .ok (if n = 0 then 1 else nmv) := by
  unfold poisson_likelihood
  rw [if_pos rfl]
  unfold poisson_likelihood_zero_rate
  rcases lt_or_eq_of_le hn with h | h
  · rw [if_neg, if_pos, if_neg]
    · omega
    · exact_mod_cast h
    · exact_mod_cast h.ne.symm
  · rw [if_pos, if_pos h.symm]
    exact_mod_cast h.symm

/-- Witness for C1: evaluates the theorem at `num_events = 3`,
`not_modeled_val = 5`. -/
theorem poisson_likelihood_zero_rate_branch_witness :
    poisson_likelihood (fun x => x) 3 0 1 5 = .ok (if (3 : ℤ) = 0 then 1 else 5) :=
  poisson_likelihood_zero_rate_branch (fun x => x) 1 5 3 (by decide)

/-- C2 (code bug): in the `rate == 0` branch `poisson_log_likelihood` passes
`rate` — not `num_events` — to `poisson_likelihood_zero_rate`, so it returns
`log(1.0)` for every `num_events` and every `not_modeled_val`; the documented
`log(not_modeled_val)` for `num_events > 0` is never produced. -/
theorem poisson_log_likelihood_zero_rate_ignores_num_events
    (lg : ℚ → ℚ) (n : ℤ) (t nmv : ℚ) :
    poisson_log_likelihood lg n 0 t nmv = .ok (lg 1) := by
  unfold poisson_log_likelihood
  rw [if_pos rfl]
  unfold poisson_likelihood_zero_rate
  rw [if_pos rfl]
  rfl

/-- C5: `negative_binomial_distribution` with `dispersion == 0` degenerates
to `poisson_likelihood` at the same count and mean rate (with the default
time interval and not-modeled value). -/
theorem negative_binomial_zero_dispersion (e : ℚ → ℚ) (gammaF : ℚ → ℚ)
    (rpow : ℚ → ℚ → ℚ) (n : ℤ) (mean : ℚ) (hn : 0 ≤ n) (hm : 0 ≤ mean) :
    negative_binomial_distribution e gammaF rpow n mean 0 =
      poisson_likelihood e n mean := by
  unfold negative_binomial_distribution
  rw [if_pos rfl]

/-- Witness for C5: evaluates the theorem at `n = 2`, `mean = 3`. -/
theorem negative_binomial_zero_dispersion_witness :
    negative_binomial_distribution (fun x => x) (fun x => x) (fun a _ => a) 2 3 0 =
      poisson_likelihood (fun x => x) 2 3 :=
  negative_binomial_zero_dispersion (fun x => x) (fun x => x) (fun a _ => a)
    2 3 (by decide) (by norm_num)

/-- C8: `poisson_likelihood` called with a negative `num_events` (and the
default time interval and not-modeled value) raises `ValueError` for every
rate: via the zero-rate helper when `rate == 0`, and via `math.factorial`
otherwise. -/
theorem poisson_likelihood_negative_raises (e : ℚ → ℚ) (rate : ℚ)
    (n : ℤ) (hn : n < 0) :
    ∃ msg, poisson_likelihood e n rate 1 0 = .error (.valueError msg) := by
  unfold poisson_likelihood
  by_cases hr : rate = 0
  · rw [if_pos hr]
    unfold poisson_likelihood_zero_rate
    rw [if_neg, if_neg]
    · exact ⟨_, rfl⟩
    · push_neg
      exact_mod_cast hn.le
    · exact_mod_cast hn.ne
  · rw [if_neg hr, if_neg]
    · unfold math_factorial
      rw [if_pos hn]
      exact ⟨_, rfl⟩
    · rintro ⟨h0, -⟩
      rw [mul_one] at h0
      exact hr h0

/-- Witness for C8: evaluates the theorem at `rate = 2`, `num_events = -1`. -/
theorem poisson_likelihood_negative_raises_witness :
    ∃ msg, poisson_likelihood (fun x => x) (-1) 2 1 0 = .error (.valueError msg) :=
  poisson_likelihood_negative_raises (fun x => x) 2 (-1) (by decide)

/-- Zipping a list with itself pairs each element with itself. -/
theorem zip_self {α : Type} (l : List α) : l.zip l = l.map fun a => (a, a) := by
  induction l with
  | nil => rfl
  | cons x xs ih => simp [List.zip_cons_cons, ih]

/-- Folding float addition over a list of (float) zeros leaves the
accumulator unchanged. -/
theorem foldl_add_zeros (l : List NpFloat) : ∀ c : ℚ,
    (∀ x ∈ l, x = .val 0) → l.foldl NpFloat.add (.val c) = .val c := by
  induction l with
  | nil => intro c _; rfl
  | cons x xs ih =>
      intro c h
      have hx := h x (List.mem_cons_self x xs)
      have hstep : NpFloat.add (.val c) x = .val c := by
        rw [hx]; show NpFloat.val (c + 0) = NpFloat.val c; rw [add_zero]
      simp only [List.foldl_cons, hstep]
      exact ih c fun y hy => h y (List.mem_cons_of_mem x hy)

/-- C9 (amended): `kullback_leibler_divergence(p, p)` is exactly `0` for any
distribution `p` all of whose entries are strictly positive (for any
interpretation of the logarithm with `log 1 = 0`). -/
theorem kullback_leibler_divergence_self (lg : ℚ → ℚ) (hlg : lg 1 = 0)
    (p : List ℚ) (hpos : ∀ x ∈ p, 0 < x) (hsum : p.sum = 1) :
    kullback_leibler_divergence lg p p = .val 0 := by
  unfold kullback_leibler_divergence np_sum
  rw [zip_self, List.map_map]
  apply foldl_add_zeros
  intro x hx
  rcases List.mem_map.1 hx with ⟨a, ha, rfl⟩
  have hapos := hpos a ha
  show NpFloat.mul (.val a) (np_log lg (NpFloat.div (.val a) (.val a))) = .val 0
  have hdiv : NpFloat.div (.val a) (.val a) = .val 1 := by
    show (if a = 0 then (if a = 0 then NpFloat.nan else if 0 < a then NpFloat.inf
      else NpFloat.ninf) else NpFloat.val (a / a)) = NpFloat.val 1
    rw [if_neg hapos.ne.symm, div_self hapos.ne.symm]
  rw [hdiv]
  have hlog : np_log lg (.val 1) = .val 0 := by
    show (if (1 : ℚ) = 0 then NpFloat.ninf else if (1 : ℚ) < 0 then NpFloat.nan
      else NpFloat.val (lg 1)) = NpFloat.val 0
    rw [if_neg one_ne_zero, if_neg (by norm_num), hlg]
  rw [hlog]
  show NpFloat.val (a * 0) = NpFloat.val 0
  rw [mul_zero]

/-- Witness for the amended C9: evaluates the theorem at the uniform
two-point distribution. -/
theorem kullback_leibler_divergence_self_witness :
    kullback_leibler_divergence (fun x => x - 1) [1/2, 1/2] [1/2, 1/2] = .val 0 :=
  kullback_leibler_divergence_self (fun x => x - 1) (by norm_num)
    [1/2, 1/2] (by norm_num) (by norm_num)

/-- Counterexample for C9 as stated: `p = [0, 1]` is a valid distribution
(non-negative entries summing to 1), yet `kullback_leibler_divergence(p, p)`
is NaN, not `0`: the zero entry produces `0/0 = NaN`, which propagates
through `np.log`, the product and `np.sum`. -/
theorem kullback_leibler_divergence_self_zero_entry_nan :
    ([(0 : ℚ), 1].sum = 1 ∧ ∀ x ∈ [(0 : ℚ), 1], 0 ≤ x) ∧
    kullback_leibler_divergence (fun x => x - 1) [0, 1] [0, 1] = .nan ∧
    kullback_leibler_divergence (fun x => x - 1) [0, 1] [0, 1] ≠ .val 0 := by
  have hkl : kullback_leibler_divergence (fun x => x - 1) [0, 1] [0, 1] = .nan := by
    show np_sum [NpFloat.mul (.val 0) (np_log (fun x => x - 1)
        (NpFloat.div (.val 0) (.val 0))),
      NpFloat.mul (.val 1) (np_log (fun x => x - 1)
        (NpFloat.div (.val 1) (.val 1)))] = .nan
    have h00 : NpFloat.div (.val 0) (.val 0) = NpFloat.nan := by
      show (if (0 : ℚ) = 0 then (if (0 : ℚ) = 0 then NpFloat.nan
        else if (0 : ℚ) < 0 then NpFloat.inf else NpFloat.ninf)
        else NpFloat.val (0 / 0)) = NpFloat.nan
      rw [if_pos rfl, if_pos rfl]
    have h11 : NpFloat.div (.val 1) (.val 1) = NpFloat.val 1 := by
      show (if (1 : ℚ) = 0 then (if (1 : ℚ) = 0 then NpFloat.nan
        else if 0 < (1 : ℚ) then NpFloat.inf else NpFloat.ninf)
        else NpFloat.val (1 / 1)) = NpFloat.val 1
      rw [if_neg one_ne_zero]; norm_num
    rw [h00, h11]
    show np_sum [NpFloat.mul (.val 0) NpFloat.nan,
      NpFloat.mul (.val 1) (if (1 : ℚ) = 0 then NpFloat.ninf
        else if (1 : ℚ) < 0 then NpFloat.nan else NpFloat.val ((fun x => x - 1) 1))] = .nan
    rw [if_neg one_ne_zero, if_neg (by norm_num : ¬ (1 : ℚ) < 0)]
    rfl
  refine ⟨⟨by norm_num, by norm_num⟩, hkl, ?_⟩
  rw [hkl]
  intro h
  exact NpFloat.noConfusion h

/-- C6: the literal regression case — the count sequence
`[4, 4, 5, 2, 4, 2, 5, 6]` yields exactly the frequency table
`{2: 0.25, 4: 0.375, 5: 0.25, 6: 0.125}`. -/
theorem get_mfd_freq_counts_regression :
    get_mfd_freq_counts [4, 4, 5, 2, 4, 2, 5, 6] =
      [(2, 1/4), (4, 3/8), (5, 1/4), (6, 1/8)] := by
  have h1 : np_unique [4, 4, 5, 2, 4, 2, 5, 6] = ([2, 4, 5, 6], [2, 3, 2, 1]) := by
    decide
  simp only [get_mfd_freq_counts, h1]
  norm_num [List.zip, List.zipWith]

/-- C10: for a non-empty input, `get_mfd_freq_counts` returns a probability
mass function over the distinct count values: every frequency is strictly
positive and the frequencies sum to 1. -/
theorem get_mfd_freq_counts_pmf (l : List ℤ) (hne : l ≠ []) :
    (∀ p ∈ get_mfd_freq_counts l, 0 < p.2) ∧
    ((get_mfd_freq_counts l).map Prod.snd).sum = 1 := by
  have hperm : List.Perm (np_unique l).1 l.dedup := List.perm_insertionSort _ _
  have hcounts : (np_unique l).2 = (np_unique l).1.map fun v => l.count v := rfl
  have hsum_counts : (np_unique l).2.sum = l.length := by
    rw [hcounts, (hperm.map fun v => l.count v).sum_eq]
    exact List.sum_map_count_dedup_eq_length l
  have htot_pos : (0 : ℚ) < (((np_unique l).2.sum : ℕ) : ℚ) := by
    rw [hsum_counts]
    exact_mod_cast List.length_pos.2 hne
  have hlen : ((np_unique l).2.map
      fun c : ℕ => (c : ℚ) / (((np_unique l).2.sum : ℕ) : ℚ)).length ≤
      (np_unique l).1.length := by
    rw [List.length_map, hcounts, List.length_map]
  have hsnd : (get_mfd_freq_counts l).map Prod.snd =
      (np_unique l).2.map fun c : ℕ => (c : ℚ) / (((np_unique l).2.sum : ℕ) : ℚ) :=
    List.map_snd_zip _ _ hlen
  constructor
  · rintro ⟨a, b⟩ hp
    have hb : b ∈ (np_unique l).2.map
        fun c : ℕ => (c : ℚ) / (((np_unique l).2.sum : ℕ) : ℚ) :=
      (List.of_mem_zip hp).2
    rcases List.mem_map.1 hb with ⟨c, hc, rfl⟩
    rw [hcounts] at hc
    rcases List.mem_map.1 hc with ⟨v, hv, rfl⟩
    have hvl : v ∈ l := List.mem_dedup.1 (hperm.mem_iff.1 hv)
    have hcpos : 0 < l.count v := List.count_pos_iff.2 hvl
    exact div_pos (by exact_mod_cast hcpos) htot_pos
  · rw [hsnd, hcounts, List.map_map]
    simp only [Function.comp_def, div_eq_mul_inv]
    rw [List.sum_map_mul_right]
    have hcast : ((np_unique l).1.map
        fun v => ((l.count v : ℕ) : ℚ)).sum = ((l.length : ℕ) : ℚ) := by
      rw [← hsum_counts, hcounts, Nat.cast_list_sum, List.map_map]
      rfl
    rw [hcast, ← hcounts, hsum_counts]
    rw [hsum_counts] at htot_pos
    exact mul_inv_cancel₀ htot_pos.ne.symm

/-- Witness for C10: evaluates the theorem on the non-empty regression
input. -/
theorem get_mfd_freq_counts_pmf_witness :
    (∀ p ∈ get_mfd_freq_counts [4, 4, 5, 2, 4, 2, 5, 6], 0 < p.2) ∧
    ((get_mfd_freq_counts [4, 4, 5, 2, 4, 2, 5, 6]).map Prod.snd).sum = 1 :=
  get_mfd_freq_counts_pmf [4, 4, 5, 2, 4, 2, 5, 6] (by decide)

/-- Counterexample for C3 as stated: with `likelihood_method` set to the
unknown value `montecarlo` and no `report` section configured,
`mfd_likelihood_test` raises no error at all — neither branch of the
dispatch runs, the report tail is skipped, and the bin collection is
returned unchanged (the unknown method is silently ignored, with no
descriptive error anywhere). -/
theorem mfd_likelihood_test_unknown_method_silent :
    mfd_likelihood_test (fun _ => "") (fun _ _ _ => none) (fun _ _ _ _ => none)
      { likelihood_method := "montecarlo", n_iters := 5,
        investigation_time := 10, not_modeled_val := 0,
        default_likelihood := 1 }
      false { rows := [], log_like := none } =
      .ok ({ rows := [], log_like := none }, none) := by
  rfl

/-- C3 (amended): calling `mfd_likelihood_test` with a `likelihood_method`
that is neither `empirical` nor `poisson` runs neither test and emits no
diagnostic about the method: without a configured report it returns the bin
collection unchanged and raises nothing; with a report configured, the only
failure is the report tail itself — `bin_gdf.log_like` raises
`AttributeError` when the collection has no `log_like` column (as when no
test ever wrote it), and when the column already exists the describe-table
of the untouched column is returned. -/
theorem mfd_likelihood_test_unknown_method_noop
    (to_html : List (ℕ × ℚ) → String)
    (calcE : List (ℚ × List Earthquake) → List (ℚ × List (ℤ × ℚ)) → ℚ → Option ℚ)
    (calcP : List (ℚ × List Earthquake) → List (ℚ × ℚ) → ℚ → ℚ → Option ℚ)
    (cfg : LikelihoodTestConfig) (report : Bool) (gdf : BinGDF)
    (h1 : cfg.likelihood_method ≠ "empirical")
    (h2 : cfg.likelihood_method ≠ "poisson") :
    (report = false →
      mfd_likelihood_test to_html calcE calcP cfg report gdf = .ok (gdf, none)) ∧
    (report = true → gdf.log_like = none →
      mfd_likelihood_test to_html calcE calcP cfg report gdf =
        .error "AttributeError") ∧
    (∀ col, report = true → gdf.log_like = some col →
      mfd_likelihood_test to_html calcE calcP cfg report gdf =
        .ok (gdf, some (to_html col))) := by
  unfold mfd_likelihood_test
  rw [if_neg h1, if_neg h2]
  refine ⟨?_, ?_, ?_⟩
  · intro hr
    subst hr
    rfl
  · intro hr hl
    subst hr
    show (match gdf.log_like with
      | none => Except.error "AttributeError"
      | some col => Except.ok (gdf, some (to_html col))) =
      Except.error "AttributeError"
    rw [hl]
  · intro col hr hl
    subst hr
    show (match gdf.log_like with
      | none => Except.error "AttributeError"
      | some col => Except.ok (gdf, some (to_html col))) =
      Except.ok (gdf, some (to_html col))
    rw [hl]

/-- Witness for the amended C3: evaluates the theorem at the unknown method
string `geometric`, with a report configured and no `log_like` column, the
case that raises `AttributeError`. -/
theorem mfd_likelihood_test_unknown_method_noop_witness :
    (true = false →
      mfd_likelihood_test (fun _ => "h") (fun _ _ _ => none)
        (fun _ _ _ _ => none) ⟨"geometric", 1, 1, 0, 0⟩ true ⟨[], none⟩ =
        .ok (⟨[], none⟩, none)) ∧
    (true = true → (⟨[], none⟩ : BinGDF).log_like = none →
      mfd_likelihood_test (fun _ => "h") (fun _ _ _ => none)
        (fun _ _ _ _ => none) ⟨"geometric", 1, 1, 0, 0⟩ true ⟨[], none⟩ =
        .error "AttributeError") ∧
    (∀ col, true = true → (⟨[], none⟩ : BinGDF).log_like = some col →
      mfd_likelihood_test (fun _ => "h") (fun _ _ _ => none)
        (fun _ _ _ _ => none) ⟨"geometric", 1, 1, 0, 0⟩ true ⟨[], none⟩ =
        .ok (⟨[], none⟩, some ((fun _ => "h") col))) :=
  mfd_likelihood_test_unknown_method_noop (fun _ => "h") (fun _ _ _ => none)
    (fun _ _ _ _ => none) ⟨"geometric", 1, 1, 0, 0⟩ true ⟨[], none⟩
    (by decide) (by decide)

/-- Rows of an association list with nodup keys are determined by their
key. -/
theorem nodup_keys_mem_unique {α : Type} : ∀ (l : List (ℕ × α)),
    (l.map Prod.fst).Nodup → ∀ (k : ℕ) (b b' : α),
    (k, b) ∈ l → (k, b') ∈ l → b = b' := by
  intro l
  induction l with
  | nil => intro _ k b b' hb; cases hb
  | cons x xs ih =>
      rintro hnodup k b b' hb hb'
      obtain ⟨k₀, a₀⟩ := x
      rw [List.map_cons, List.nodup_cons] at hnodup
      rcases List.mem_cons.1 hb with heq | hmemb
      · injection heq with hk ha
        subst hk
        rcases List.mem_cons.1 hb' with heq' | hmemb'
        · injection heq' with _ ha'
          rw [ha, ha']
        · exact absurd (List.mem_map.2 ⟨(k, b'), hmemb', rfl⟩) hnodup.1
      · rcases List.mem_cons.1 hb' with heq' | hmemb'
        · injection heq' with hk' ha'
          subst hk'
          exact absurd (List.mem_map.2 ⟨(k, b), hmemb, rfl⟩) hnodup.1
        · exact ih hnodup.2 k b b' hmemb hmemb'

/-- Looking up a key that belongs to no entry of an association list gives
`none`. -/
theorem lookup_eq_none_of_keys_ne {β : Type} : ∀ (l : List (ℕ × β)) (k : ℕ),
    (∀ kv ∈ l, kv.1 ≠ k) → l.lookup k = none := by
  intro l
  induction l with
  | nil => intro k _; rfl
  | cons x xs ih =>
      intro k h
      obtain ⟨k₀, v₀⟩ := x
      have hne : k ≠ k₀ := fun hk =>
        h (k₀, v₀) (List.mem_cons_self _ _) hk.symm
      show List.lookup k ((k₀, v₀) :: xs) = none
      rw [List.lookup_cons, beq_eq_false_iff_ne.2 hne]
      exact ih k fun kv hkv => h kv (List.mem_cons_of_mem _ hkv)

/-- Looking up a present key in a constant column built over the row keys
returns the constant. -/
theorem lookup_map_const {α β : Type} : ∀ (l : List (ℕ × α)) (c : β) (k : ℕ),
    k ∈ l.map Prod.fst → (l.map fun r => (r.1, c)).lookup k = some c := by
  intro l
  induction l with
  | nil => intro c k h; cases h
  | cons x xs ih =>
      intro c k h
      obtain ⟨k₀, v₀⟩ := x
      show List.lookup k ((k₀, c) :: xs.map fun r => (r.1, c)) = some c
      rw [List.lookup_cons]
      by_cases hk : k = k₀
      · rw [beq_iff_eq.mpr hk]
      · rw [beq_eq_false_iff_ne.2 hk]
        apply ih
        rcases List.mem_map.1 h with ⟨r, hr, hrk⟩
        rcases List.mem_cons.1 hr with h0 | h0
        · exact absurd (by rw [← hrk, h0]) hk
        · exact List.mem_map.2 ⟨r, h0, hrk⟩

/-- A series update whose update series does not mention a key leaves the
value of that key unchanged. -/
theorem series_update_lookup_of_none :
    ∀ (base : List (ℕ × ℚ)) (upd : List (ℕ × Option ℚ)) (k : ℕ),
    upd.lookup k = none →
    (series_update base upd).lookup k = base.lookup k := by
  intro base
  induction base with
  | nil => intro upd k _; rfl
  | cons kv rest ih =>
      intro upd k h
      obtain ⟨k₀, v₀⟩ := kv
      show List.lookup k ((k₀, ((upd.lookup k₀).join).getD v₀) ::
        series_update rest upd) = List.lookup k ((k₀, v₀) :: rest)
      rw [List.lookup_cons, List.lookup_cons]
      by_cases hk : k = k₀
      · subst hk
        rw [beq_self_eq_true, h]
        rfl
      · rw [beq_eq_false_iff_ne.2 hk]
        exact ih upd k h

/-- C4: after `mfd_poisson_likelihood_test` (and after a completed
`mfd_empirical_likelihood_test`), every row whose bin is not a source bin
carries the configured `default_likelihood` in the `log_like` column, and
the rows of the bin collection are unchanged (none removed). -/
theorem mfd_likelihood_tests_default_fill
    (calcP : List (ℚ × List Earthquake) → List (ℚ × ℚ) → ℚ → ℚ → Option ℚ)
    (calcE : List (ℚ × List Earthquake) → List (ℚ × List (ℤ × ℚ)) → ℚ → Option ℚ)
    (cfg : LikelihoodTestConfig) (gdf : BinGDF)
    (hnodup : (gdf.rows.map Prod.fst).Nodup)
    (k : ℕ) (b : SpacemagBin) (hmem : (k, b) ∈ gdf.rows)
    (hnb : spacemag_bin_has_sources b = false) :
    ((mfd_poisson_likelihood_test calcP cfg gdf).rows = gdf.rows ∧
      ∃ col, (mfd_poisson_likelihood_test calcP cfg gdf).log_like = some col ∧
        col.lookup k = some cfg.default_likelihood) ∧
    ∀ out, mfd_empirical_likelihood_test calcE cfg gdf = .ok out →
      out.rows = gdf.rows ∧
      ∃ col, out.log_like = some col ∧
        col.lookup k = some cfg.default_likelihood := by
  have hksrc : ∀ kv ∈ get_source_bins gdf.rows, kv.1 ≠ k := by
    rintro ⟨k', b'⟩ hkv hkk
    dsimp only at hkk
    rw [hkk] at hkv
    have hf := List.mem_filter.1 hkv
    have hbb : b' = b :=
      nodup_keys_mem_unique gdf.rows hnodup k b' b hf.1 hmem
    rw [hbb, hnb] at hf
    exact Bool.noConfusion hf.2
  have hlookup_none : ∀ f : ℕ × SpacemagBin → Option ℚ,
      ((get_source_bins gdf.rows).map fun row => (row.1, f row)).lookup k =
        none := by
    intro f
    apply lookup_eq_none_of_keys_ne
    rintro ⟨k', v⟩ hkv
    rcases List.mem_map.1 hkv with ⟨row, hrow, heq⟩
    injection heq with h1 _
    rw [← h1]
    exact hksrc row hrow
  have hbase : (gdf.rows.map fun row =>
      (row.1, cfg.default_likelihood)).lookup k =
      some cfg.default_likelihood :=
    lookup_map_const gdf.rows cfg.default_likelihood k
      (List.mem_map.2 ⟨(k, b), hmem, rfl⟩)
  constructor
  · exact ⟨rfl, _, rfl,
      (series_update_lookup_of_none _ _ k (hlookup_none _)).trans hbase⟩
  · intro out hout
    simp only [mfd_empirical_likelihood_test] at hout
    cases hmapM : (get_source_bins gdf.rows).mapM fun row =>
        (get_stochastic_mfd row.2 cfg.n_iters cfg.investigation_time).map
          fun mfd => (row.1, mfd) with
    | error e =>
        rw [hmapM] at hout
        exact Except.noConfusion hout
    | ok source_bin_mfds =>
        rw [hmapM] at hout
        injection hout with hout
        subst hout
        exact ⟨rfl, _, rfl,
          (series_update_lookup_of_none _ _ k (hlookup_none _)).trans hbase⟩

/-- Witness for C4: evaluates the theorem on a two-row collection whose
second row has no ruptures, with `default_likelihood = -5`. -/
theorem mfd_likelihood_tests_default_fill_witness :
    ((mfd_poisson_likelihood_test (fun _ _ _ _ => some 7)
        ⟨"poisson", 1, 1, 0, -5⟩
        ⟨[(0, smb_with_rupture), (1, smb_without_rupture)], none⟩).rows =
        [(0, smb_with_rupture), (1, smb_without_rupture)] ∧
      ∃ col, (mfd_poisson_likelihood_test (fun _ _ _ _ => some 7)
          ⟨"poisson", 1, 1, 0, -5⟩
          ⟨[(0, smb_with_rupture), (1, smb_without_rupture)], none⟩).log_like =
          some col ∧
        col.lookup 1 = some (-5)) ∧
    ∀ out, mfd_empirical_likelihood_test (fun _ _ _ => some 9)
        ⟨"poisson", 1, 1, 0, -5⟩
        ⟨[(0, smb_with_rupture), (1, smb_without_rupture)], none⟩ = .ok out →
      out.rows = [(0, smb_with_rupture), (1, smb_without_rupture)] ∧
      ∃ col, out.log_like = some col ∧ col.lookup 1 = some (-5) :=
  mfd_likelihood_tests_default_fill (fun _ _ _ _ => some 7) (fun _ _ _ => some 9)
    ⟨"poisson", 1, 1, 0, -5⟩
    ⟨[(0, smb_with_rupture), (1, smb_without_rupture)], none⟩
    (by decide) 1 smb_without_rupture
    (List.mem_cons_of_mem _ (List.mem_cons_self _ _)) rfl

/-- Binding a success value in `Except` applies the continuation. -/
theorem except_bind_ok {ε α β : Type} (a : α) (f : α → Except ε β) :
    (Except.ok a >>= f) = f a := rfl

/-- Binding `pure` in `Except` is the identity. -/
theorem except_bind_pure {ε α : Type} (x : Except ε α) : (x >>= pure) = x := by
  cases x <;> rfl

/-- The key of a dict entry is unchanged by `append_if_key`. -/
theorem append_if_key_fst (bc : ℚ) (n : ℤ) (kv : ℚ × List ℤ) :
    (append_if_key bc n kv).1 = kv.1 := by
  unfold append_if_key
  split <;> rfl

/-- When every drawn magnitude has an entry in the dict, one iteration of
`get_stochastic_mfd_counts` raises no `KeyError` and acts as a pure fold of
per-entry appends. -/
theorem sample_foldlM_ok (sample : List (ℚ × ℚ)) :
    ∀ counts : List (ℚ × List ℤ),
    (∀ bn ∈ sample, ∃ kv ∈ counts, kv.1 = bn.1) →
    sample.foldlM (fun acc bn => dict_append_count acc bn.1 (pyInt bn.2))
        counts =
      .ok (sample.foldl
        (fun acc bn => acc.map (append_if_key bn.1 (pyInt bn.2))) counts) := by
  induction sample with
  | nil => intro counts _; rfl
  | cons bn rest ih =>
      intro counts h
      rcases h bn (List.mem_cons_self _ _) with ⟨kv, hkv, hk⟩
      have hcond : (counts.any fun kv => kv.1 == bn.1) = true := by
        apply List.any_eq_true.2
        refine ⟨kv, hkv, ?_⟩
        rw [beq_iff_eq]
        exact hk
      have hda : dict_append_count counts bn.1 (pyInt bn.2) =
          .ok (counts.map (append_if_key bn.1 (pyInt bn.2))) := by
        unfold dict_append_count
        rw [if_pos hcond]
      rw [List.foldlM_cons, hda, List.foldl_cons, except_bind_ok]
      refine ih _ ?_
      intro bn₂ hbn₂
      rcases h bn₂ (List.mem_cons_of_mem _ hbn₂) with ⟨kv₂, hkv₂, hk₂⟩
      exact ⟨append_if_key bn.1 (pyInt bn.2) kv₂, List.mem_map_of_mem _ hkv₂,
        (append_if_key_fst _ _ _).trans hk₂⟩

/-- One iteration of appends, elementwise: each dict entry receives exactly
the counts drawn for its own key. -/
theorem foldl_append_eq_map (sample : List (ℚ × ℚ)) :
    ∀ counts : List (ℚ × List ℤ),
    sample.foldl (fun acc bn => acc.map (append_if_key bn.1 (pyInt bn.2)))
        counts =
      counts.map fun kv => (kv.1, kv.2 ++
        ((sample.filter fun bn => bn.1 == kv.1).map fun bn => pyInt bn.2)) := by
  induction sample with
  | nil => intro counts; simp
  | cons bn rest ih =>
      intro counts
      rw [List.foldl_cons, ih, List.map_map]
      apply List.map_congr_left
      intro kv _
      unfold append_if_key
      cases hbk : (kv.1 == bn.1) with
      | true =>
          have hp : kv.1 = bn.1 := by
            rw [beq_iff_eq] at hbk
            exact hbk
          have hbk₂ : (bn.1 == kv.1) = true := by
            rw [beq_iff_eq]
            exact hp.symm
          simp [hp, hbk₂, List.filter_cons, List.append_assoc]
      | false =>
          have hp : ¬ kv.1 = bn.1 := by
            rw [beq_eq_false_iff_ne] at hbk
            exact hbk
          have hbk₂ : (bn.1 == kv.1) = false := by
            rw [beq_eq_false_iff_ne]
            exact fun he => hp he.symm
          simp [hp, hbk₂, List.filter_cons]

/-- Entries of a nodup list equal to a present element form a singleton
filter. -/
theorem filter_beq_nil (c : ℚ) : ∀ l : List ℚ, c ∉ l →
    l.filter (fun x => x == c) = [] := by
  intro l
  induction l with
  | nil => intro _; rfl
  | cons x xs ih =>
      intro h
      have hx : ¬ x = c := fun he => h (he ▸ List.mem_cons_self x xs)
      rw [List.filter_cons_of_neg (by simpa using hx)]
      exact ih fun hc => h (List.mem_cons_of_mem _ hc)

/-- Filtering a nodup list for equality with one of its members keeps
exactly one element. -/
theorem filter_beq_length_one : ∀ (l : List ℚ) (c : ℚ), l.Nodup → c ∈ l →
    (l.filter fun x => x == c).length = 1 := by
  intro l
  induction l with
  | nil => intro c _ hc; cases hc
  | cons x xs ih =>
      intro c hnd hc
      rw [List.nodup_cons] at hnd
      rcases List.mem_cons.1 hc with rfl | hcx
      · rw [List.filter_cons_of_pos (by simp), List.length_cons,
          filter_beq_nil c xs hnd.1]
        rfl
      · have hxc : ¬ x = c := fun he => hnd.1 (he ▸ hcx)
        rw [List.filter_cons_of_neg (by simpa using hxc)]
        exact ih c hnd.2 hcx

/-- C7: when every draw of `get_rupture_sample_mfd` is a mapping over
exactly the bin's magnitude bin centers, `get_stochastic_mfd_counts`
succeeds and returns a mapping whose keys are exactly the magnitude bin
centers, each holding exactly `n_iters` sampled counts. -/
theorem get_stochastic_mfd_counts_shape (smb : SpacemagBin) (il : ℚ) :
    ∀ n_iters : ℕ, smb.mag_bin_centers.Nodup →
    (∀ i, i < n_iters →
      (smb.get_rupture_sample_mfd il i).map Prod.fst = smb.mag_bin_centers) →
    ∃ m, get_stochastic_mfd_counts smb n_iters il = .ok m ∧
      m.map Prod.fst = smb.mag_bin_centers ∧
      ∀ kv ∈ m, kv.2.length = n_iters := by
  intro n
  induction n with
  | zero =>
      intro _ _
      refine ⟨smb.mag_bin_centers.map fun bc => (bc, ([] : List ℤ)),
        rfl, ?_, ?_⟩
      · rw [List.map_map]
        exact List.map_id smb.mag_bin_centers
      · rintro kv hkv
        rcases List.mem_map.1 hkv with ⟨bc, _, rfl⟩
        rfl
  | succ n ih =>
      intro hnodup hkeys
      rcases ih hnodup (fun i hi => hkeys i (Nat.lt_succ_of_lt hi)) with
        ⟨m, hm, hmkeys, hmlen⟩
      have hsample := hkeys n (Nat.lt_succ_self n)
      have hpre : ∀ bn ∈ smb.get_rupture_sample_mfd il n,
          ∃ kv ∈ m, kv.1 = bn.1 := by
        intro bn hbn
        have hbn1 : bn.1 ∈ m.map Prod.fst := by
          rw [hmkeys, ← hsample]
          exact List.mem_map_of_mem _ hbn
        rcases List.mem_map.1 hbn1 with ⟨kv, hkv, hk⟩
        exact ⟨kv, hkv, hk⟩
      have hstep := sample_foldlM_ok (smb.get_rupture_sample_mfd il n) m hpre
      refine ⟨(smb.get_rupture_sample_mfd il n).foldl
          (fun acc bn => acc.map (append_if_key bn.1 (pyInt bn.2))) m,
        ?_, ?_, ?_⟩
      · unfold get_stochastic_mfd_counts at hm ⊢
        simp only [List.range_succ, List.foldlM_append, hm, except_bind_ok,
          List.foldlM_cons, List.foldlM_nil, except_bind_pure]
        exact hstep
      · rw [foldl_append_eq_map, List.map_map]
        exact hmkeys
      · intro kv hkv
        rw [foldl_append_eq_map] at hkv
        rcases List.mem_map.1 hkv with ⟨kv₀, hkv₀, rfl⟩
        show (kv₀.2 ++ _).length = n + 1
        rw [List.length_append, hmlen kv₀ hkv₀, List.length_map]
        have hkey : kv₀.1 ∈ smb.mag_bin_centers := by
          rw [← hmkeys]
          exact List.mem_map_of_mem _ hkv₀
        have h1 : (((smb.get_rupture_sample_mfd il n).map Prod.fst).filter
            fun x => x == kv₀.1).length = 1 := by
          rw [hsample]
          exact filter_beq_length_one _ _ hnodup hkey
        rw [List.filter_map, List.length_map] at h1
        have h2 : ((smb.get_rupture_sample_mfd il n).filter
            fun bn => bn.1 == kv₀.1).length = 1 := h1
        rw [h2]

/-- Witness for C7: evaluates the theorem on a bin with centers `[6, 7]`, a
constant sampler drawing counts `2` and `0`, and two iterations. -/
theorem get_stochastic_mfd_counts_shape_witness :
    ∃ m, get_stochastic_mfd_counts
        ⟨[6, 7], [], [], fun _ _ => [(6, 2), (7, 0)]⟩ 2 1 = .ok m ∧
      m.map Prod.fst = [6, 7] ∧ ∀ kv ∈ m, kv.2.length = 2 :=
  get_stochastic_mfd_counts_shape ⟨[6, 7], [], [], fun _ _ => [(6, 2), (7, 0)]⟩
    1 2 (by decide) (fun i _ => rfl)

end Hamlet
